import Mathlib

/-!
Shallow embedding of the polymorphic value / serialization subsystem of the
repository (src/src/script_interface/PackedVariant.hpp) together with the
bin-normalization step of
src/src/core/observables/CylindricalVelocityProfile.hpp, and proofs of the
specified properties of pack/unpack.

The live `Variant` type itself is declared in Variant.hpp, which is not part
of the sources at hand; it is modelled from the spec (§3 of spec.md), whose
case list is corroborated by the wire type `PackedVariant` declared in
PackedVariant.hpp lines 18-21 (the wire type is the same sum with `ObjectId`
in place of `ObjectRef`).

Machine doubles only flow through pack/unpack unchanged (they are copied,
never computed with), so the `double` payload is represented by `Rat`; the
same representation is used for the histogram values of
CylindricalVelocityProfile, where the only arithmetic is one division guarded
by a positivity test on an integer count.
-/

namespace ScriptInterface

/-- Modelled from the spec: an external stateful object (`ObjectHandle`,
declared outside the sources at hand).  Its identity is its allocation
address; `state` stands for its (otherwise opaque) contents, which play no
role in identity. -/
structure ObjectHandle where
  addr : Nat
  state : Nat
deriving DecidableEq, Repr

/-- Modelled from the spec: `ObjectRef` is a shared-ownership reference
(`std::shared_ptr<ObjectHandle>`) to an external object.  A reference is
modelled by the object it points to; identity-equality of references is
equality of `addr`. -/
abbrev ObjectRef := ObjectHandle

/-- `using ObjectId = std::size_t;` (PackedVariant.hpp line 11). -/
abbrev ObjectId := Nat

/-- `object_id` (PackedVariant.hpp lines 13-16): the id of a reference is
`std::hash<const ObjectHandle *>{}(p.get())`.  In the implementations this
code targets (libstdc++/libc++), `std::hash` of a pointer is the identity on
the pointer's value, so the id is the address of the referenced object. -/
def object_id (p : ObjectRef) : ObjectId := p.addr

/-- The live `Variant` sum type.  Modelled from the spec (§3): `None`, bool,
int, double, string, vector of int, vector of double, `ObjectRef`, vector of
Variant, and the fixed-size double vectors `Utils::Vector2d/3d/4d`; it mirrors
`PackedVariant` (PackedVariant.hpp lines 18-21) with `ObjectRef` in place of
`ObjectId`. -/
inductive Variant where
  | vnone
  | vbool (b : Bool)
  | vint (i : Int)
  | vdouble (d : Rat)
  | vstring (s : String)
  | vintVec (xs : List Int)
  | vdoubleVec (xs : List Rat)
  | vobjectRef (r : ObjectRef)
  | vvec (xs : List Variant)
  | vvector2d (x y : Rat)
  | vvector3d (x y z : Rat)
  | vvector4d (x y z w : Rat)
deriving Repr

/-- The wire `PackedVariant` type (PackedVariant.hpp lines 18-21): the same
sum as `Variant` with `ObjectId` in the place of `ObjectRef`. -/
inductive PackedVariant where
  | pnone
  | pbool (b : Bool)
  | pint (i : Int)
  | pdouble (d : Rat)
  | pstring (s : String)
  | pintVec (xs : List Int)
  | pdoubleVec (xs : List Rat)
  | pobjectId (id : ObjectId)
  | pvec (xs : List PackedVariant)
  | pvector2d (x y : Rat)
  | pvector3d (x y z : Rat)
  | pvector4d (x y z w : Rat)
deriving Repr

/-- The identity table `std::unordered_map<ObjectId, ObjectRef>` (the
`m_objects` member of `PackVisitor` and the `objects` argument of unpacking),
modelled as an association list with at most one entry per key. -/
abbrev Table := List (ObjectId × ObjectRef)

/-- Map indexing `objects.find(id)`: the entry stored under a key, if any. -/
def tlookup (k : ObjectId) : Table → Option ObjectRef
  | [] => Option.none
  | p :: t => if p.1 = k then some p.2 else tlookup k t

/-- Map assignment `m_objects[oid] = so_ptr` (PackedVariant.hpp line 39):
insert-or-overwrite of the entry under `oid`. -/
def tinsert (t : Table) (k : ObjectId) (r : ObjectRef) : Table :=
  (k, r) :: t.filter (fun p => p.1 ≠ k)

mutual

/-- `PackVisitor` (PackedVariant.hpp lines 25-43) applied by
`boost::apply_visitor`: every non-reference shape is copied through (the
generic `operator()` forwards the value; the inherited `recursive_visitor`
case maps the visitor over a `std::vector<Variant>` element-wise); an
`ObjectRef` is replaced by its `object_id`, which is recorded in the
visitor's `m_objects` table.  The mutable table is threaded explicitly:
`packV v t` returns the wire value and the table after visiting `v`. -/
def packV : Variant → Table → PackedVariant × Table
  | .vnone, t => (.pnone, t)
  | .vbool b, t => (.pbool b, t)
  | .vint i, t => (.pint i, t)
  | .vdouble d, t => (.pdouble d, t)
  | .vstring s, t => (.pstring s, t)
  | .vintVec xs, t => (.pintVec xs, t)
  | .vdoubleVec xs, t => (.pdoubleVec xs, t)
  | .vobjectRef r, t => (.pobjectId (object_id r), tinsert t (object_id r) r)
  | .vvec xs, t =>
      let p := packList xs t
      (.pvec p.1, p.2)
  | .vvector2d x y, t => (.pvector2d x y, t)
  | .vvector3d x y z, t => (.pvector3d x y z, t)
  | .vvector4d x y z w, t => (.pvector4d x y z w, t)

/-- Element-wise visitation of a `std::vector<Variant>` by `PackVisitor`,
left to right, threading the visitor's table. -/
def packList : List Variant → Table → List PackedVariant × Table
  | [], t => ([], t)
  | x :: xs, t =>
      let p := packV x t
      let q := packList xs p.2
      (p.1 :: q.1, q.2)

end

/-- The condition raised by `objects.at(id)` (PackedVariant.hpp line 58) when
`id` has no entry: `std::out_of_range`, the spec's `UnknownObjectId`. -/
inductive UnpackError where
  | unknownObjectId (id : ObjectId)
deriving DecidableEq, Repr

mutual

/-- `UnpackVisitor` (PackedVariant.hpp lines 45-59) applied by
`boost::apply_visitor`: every non-id shape is copied through (element-wise
over a `std::vector<PackedVariant>`); an `ObjectId` is replaced by
`objects.at(id)`, which throws (here: returns `Except.error`) when the id is
absent from the table.  A thrown exception aborts the whole visitation, so no
partially constructed value is returned. -/
def unpackV : PackedVariant → Table → Except UnpackError Variant
  | .pnone, _ => .ok .vnone
  | .pbool b, _ => .ok (.vbool b)
  | .pint i, _ => .ok (.vint i)
  | .pdouble d, _ => .ok (.vdouble d)
  | .pstring s, _ => .ok (.vstring s)
  | .pintVec xs, _ => .ok (.vintVec xs)
  | .pdoubleVec xs, _ => .ok (.vdoubleVec xs)
  | .pobjectId id, objects =>
      match tlookup id objects with
      | some r => .ok (.vobjectRef r)
      | Option.none => .error (.unknownObjectId id)
  | .pvec xs, objects =>
      match unpackList xs objects with
      | .ok ys => .ok (.vvec ys)
      | .error e => .error e
  | .pvector2d x y, _ => .ok (.vvector2d x y)
  | .pvector3d x y z, _ => .ok (.vvector3d x y z)
  | .pvector4d x y z w, _ => .ok (.vvector4d x y z w)

/-- Element-wise visitation of a `std::vector<PackedVariant>` by
`UnpackVisitor`, left to right; the first failure aborts. -/
def unpackList : List PackedVariant → Table → Except UnpackError (List Variant)
  | [], _ => .ok []
  | x :: xs, objects =>
      match unpackV x objects with
      | .ok y =>
          match unpackList xs objects with
          | .ok ys => .ok (y :: ys)
          | .error e => .error e
      | .error e => .error e

end

/-- The free function `pack(const Variant &)` (PackedVariant.hpp lines
61-63): applies a freshly constructed temporary `PackVisitor` (empty table)
and returns only the wire value; the temporary visitor — and with it the
table reachable through `objects()` — is destroyed. -/
def pack (v : Variant) : PackedVariant := (packV v []).1

/-- The free function `unpack(const PackedVariant &, objects)`
(PackedVariant.hpp lines 65-68). -/
def unpack (v : PackedVariant) (objects : Table) : Except UnpackError Variant :=
  unpackV v objects

/-- Modelled from the spec: `VariantMap` (declared in Variant.hpp, outside
the sources at hand) — a named mapping String → Variant with unique keys;
modelled as an association list so that the iteration order the map-level
pack reads and the order the map-level unpack writes are represented
exactly. -/
abbrev VariantMap := List (String × Variant)

/-- `using PackedMap = std::vector<std::pair<std::string, PackedVariant>>;`
(PackedVariant.hpp line 23). -/
abbrev PackedMap := List (String × PackedVariant)

/-- `pack(const VariantMap &)` (PackedVariant.hpp lines 70-78):
`boost::transform` over the entries in iteration order, packing each value
with the free function `pack` — hence with a fresh temporary visitor per
entry. -/
def packMap (v : VariantMap) : PackedMap :=
  v.map (fun kv => (kv.1, pack kv.2))

/-- `unpack(const PackedMap &, objects)` (PackedVariant.hpp lines 80-92):
`boost::transform` over the entries in order, unpacking each value with the
shared table; inserted into the result in that order.  The first failing
entry aborts the whole call. -/
def unpackMap : PackedMap → Table → Except UnpackError VariantMap
  | [], _ => .ok []
  | kv :: rest, objects =>
      match unpack kv.2 objects with
      | .ok y =>
          match unpackMap rest objects with
          | .ok ys => .ok ((kv.1, y) :: ys)
          | .error e => .error e
      | .error e => .error e

end ScriptInterface

namespace Observables

/-- The normalization loop of `CylindricalVelocityProfile::evaluate`
(CylindricalVelocityProfile.hpp lines 55-62): given the accumulated
histogram `hist_tmp` and the per-entry totals `tot_count` (produced by the
external `Utils::CylindricalHistogram`, equal in length), each entry is
divided by its count only when the count is strictly positive
(`if (tot_count[ind] > 0) hist_tmp[ind] /= ...`); entries with zero count
are returned unchanged. -/
def evaluate_normalize (hist_tmp : List Rat) (tot_count : List Nat) : List Rat :=
  List.zipWith (fun h (c : Nat) => if 0 < c then h / (c : Rat) else h) hist_tmp tot_count

end Observables

namespace ScriptInterface

mutual

/-- Specification helper: the object references occurring in a live Variant,
in visitation order. -/
def refsIn : Variant → List ObjectRef
  | .vobjectRef r => [r]
  | .vvec xs => refsInList xs
  | _ => []

/-- Specification helper: the object references occurring in a vector of
Variants, in visitation order. -/
def refsInList : List Variant → List ObjectRef
  | [] => []
  | x :: xs => refsIn x ++ refsInList xs

end

mutual

/-- Specification helper: the object ids occurring in a wire Variant, in
visitation order. -/
def idsIn : PackedVariant → List ObjectId
  | .pobjectId id => [id]
  | .pvec xs => idsInList xs
  | _ => []

/-- Specification helper: the object ids occurring in a vector of wire
Variants, in visitation order. -/
def idsInList : List PackedVariant → List ObjectId
  | [] => []
  | x :: xs => idsIn x ++ idsInList xs

end

/-- Specification helper: the table obtained by recording a list of
references in order (each by `m_objects[oid] = so_ptr`). -/
def insertAll (t : Table) (rs : List ObjectRef) : Table :=
  rs.foldl (fun a r => tinsert a (object_id r) r) t

/-- A Variant is live when the references it holds are references to
coexisting objects: two held references with the same address are references
to the same object. -/
def live (v : Variant) : Prop :=
  ∀ r ∈ refsIn v, ∀ s ∈ refsIn v, r.addr = s.addr → r = s

instance (v : Variant) : Decidable (live v) := by
  unfold live; infer_instance

/-- Modelled from the spec: the claim that every invocation of the free
function `pack` gives its caller, alongside the wire value it returns, the
identity table accumulated during that pack — i.e. that the accumulated
table is recoverable from what `pack` returns to the caller. -/
def pack_exposes_table : Prop :=
  ∃ g : PackedVariant → Table, ∀ v : Variant, g (pack v) = (packV v []).2

end ScriptInterface

namespace ScriptInterface

/-! ### Lemmas about the identity table -/

theorem tlookup_tinsert_self (t : Table) (k : ObjectId) (r : ObjectRef) :
    tlookup k (tinsert t k r) = some r := by
  simp [tinsert, tlookup]

theorem tlookup_filter_ne (t : Table) (k k' : ObjectId) (hk : k' ≠ k) :
    tlookup k' (t.filter (fun p => p.1 ≠ k)) = tlookup k' t := by
  induction t with
  | nil => rfl
  | cons p t ih =>
      simp only [ne_eq, decide_not] at ih
      by_cases hpk : p.1 = k
      · have hpk' : ¬ p.1 = k' := fun h => hk (h.symm.trans hpk)
        simp [List.filter_cons, hpk, tlookup, hpk', ih, hk.symm]
      · simp [List.filter_cons, hpk, tlookup, ih]

theorem tlookup_tinsert_ne (t : Table) (k k' : ObjectId) (r : ObjectRef) (hk : k' ≠ k) :
    tlookup k' (tinsert t k r) = tlookup k' t := by
  have hk' : ¬ k = k' := fun h => hk h.symm
  simp only [tinsert, tlookup, if_neg hk']
  exact tlookup_filter_ne t k k' hk

theorem tinsert_idem (t : Table) (k : ObjectId) (r : ObjectRef) :
    tinsert (tinsert t k r) k r = tinsert t k r := by
  simp [tinsert, List.filter_filter]

theorem insertAll_cons (t : Table) (r : ObjectRef) (rs : List ObjectRef) :
    insertAll t (r :: rs) = insertAll (tinsert t (object_id r) r) rs := rfl

theorem insertAll_append (t : Table) (rs ss : List ObjectRef) :
    insertAll t (rs ++ ss) = insertAll (insertAll t rs) ss := by
  simp [insertAll, List.foldl_append]

theorem tlookup_insertAll_not_mem (t : Table) (rs : List ObjectRef) (k : ObjectId)
    (h : ∀ r ∈ rs, object_id r ≠ k) :
    tlookup k (insertAll t rs) = tlookup k t := by
  induction rs generalizing t with
  | nil => rfl
  | cons r rs ih =>
      have hr : object_id r ≠ k := h r (by simp)
      calc tlookup k (insertAll (tinsert t (object_id r) r) rs)
          = tlookup k (tinsert t (object_id r) r) :=
            ih (tinsert t (object_id r) r) (fun s hs => h s (by simp [hs]))
        _ = tlookup k t := tlookup_tinsert_ne t (object_id r) k r (fun h' => hr h'.symm)

theorem tlookup_insertAll_mem (t : Table) (rs : List ObjectRef) (k : ObjectId)
    (h : ∃ r ∈ rs, object_id r = k) :
    ∃ u, tlookup k (insertAll t rs) = some u ∧ object_id u = k := by
  induction rs generalizing t with
  | nil => simp at h
  | cons r rs ih =>
      by_cases htail : ∃ s ∈ rs, object_id s = k
      · exact ih (tinsert t (object_id r) r) htail
      · have hr : object_id r = k := by
          rcases h with ⟨s, hs, hsk⟩
          rcases List.mem_cons.mp hs with h1 | h2
          · exact h1 ▸ hsk
          · exact absurd ⟨s, h2, hsk⟩ htail
        refine ⟨r, ?_, hr⟩
        push_neg at htail
        rw [insertAll_cons, tlookup_insertAll_not_mem _ rs k htail, ← hr,
          tlookup_tinsert_self]

theorem tlookup_insertAll_live (t : Table) (rs : List ObjectRef) (r : ObjectRef)
    (hlive : ∀ a ∈ rs, ∀ b ∈ rs, object_id a = object_id b → a = b)
    (hr : r ∈ rs) :
    tlookup (object_id r) (insertAll t rs) = some r := by
  induction rs generalizing t with
  | nil => simp at hr
  | cons a rs ih =>
      by_cases htail : r ∈ rs
      · exact ih (tinsert t (object_id a) a)
          (fun x hx y hy => hlive x (by simp [hx]) y (by simp [hy])) htail
      · have hra : r = a := by
          rcases List.mem_cons.mp hr with h1 | h2
          · exact h1
          · exact absurd h2 htail
        subst hra
        have hnone : ∀ s ∈ rs, object_id s ≠ object_id r := by
          intro s hs hid
          exact htail ((hlive s (by simp [hs]) r (by simp [hr]) hid) ▸ hs)
        rw [insertAll_cons, tlookup_insertAll_not_mem _ rs (object_id r) hnone,
          tlookup_tinsert_self]

/-! ### Lemmas about packing -/

mutual

theorem packV_fst_indep : ∀ (v : Variant) (t t' : Table), (packV v t).1 = (packV v t').1
  | .vnone, _, _ => rfl
  | .vbool _, _, _ => rfl
  | .vint _, _, _ => rfl
  | .vdouble _, _, _ => rfl
  | .vstring _, _, _ => rfl
  | .vintVec _, _, _ => rfl
  | .vdoubleVec _, _, _ => rfl
  | .vobjectRef _, _, _ => rfl
  | .vvec xs, t, t' => by
      simp only [packV]
      rw [packList_fst_indep xs t t']
  | .vvector2d _ _, _, _ => rfl
  | .vvector3d _ _ _, _, _ => rfl
  | .vvector4d _ _ _ _, _, _ => rfl

theorem packList_fst_indep : ∀ (xs : List Variant) (t t' : Table),
    (packList xs t).1 = (packList xs t').1
  | [], _, _ => rfl
  | x :: xs, t, t' => by
      simp only [packList]
      rw [packV_fst_indep x t t', packList_fst_indep xs (packV x t).2 (packV x t').2]

end

mutual

theorem packV_snd_eq : ∀ (v : Variant) (t : Table), (packV v t).2 = insertAll t (refsIn v)
  | .vnone, _ => rfl
  | .vbool _, _ => rfl
  | .vint _, _ => rfl
  | .vdouble _, _ => rfl
  | .vstring _, _ => rfl
  | .vintVec _, _ => rfl
  | .vdoubleVec _, _ => rfl
  | .vobjectRef _, _ => rfl
  | .vvec xs, t => packList_snd_eq xs t
  | .vvector2d _ _, _ => rfl
  | .vvector3d _ _ _, _ => rfl
  | .vvector4d _ _ _ _, _ => rfl

theorem packList_snd_eq : ∀ (xs : List Variant) (t : Table),
    (packList xs t).2 = insertAll t (refsInList xs)
  | [], _ => rfl
  | x :: xs, t => by
      calc (packList (x :: xs) t).2 = (packList xs (packV x t).2).2 := rfl
        _ = insertAll (packV x t).2 (refsInList xs) := packList_snd_eq xs (packV x t).2
        _ = insertAll (insertAll t (refsIn x)) (refsInList xs) := by rw [packV_snd_eq x t]
        _ = insertAll t (refsIn x ++ refsInList xs) := (insertAll_append t _ _).symm
        _ = insertAll t (refsInList (x :: xs)) := rfl

end

theorem packList_fst_map (xs : List Variant) (t : Table) : (packList xs t).1 = xs.map pack := by
  induction xs generalizing t with
  | nil => rfl
  | cons x xs ih =>
      calc (packList (x :: xs) t).1 = (packV x t).1 :: (packList xs (packV x t).2).1 := rfl
        _ = pack x :: xs.map pack := by
            rw [packV_fst_indep x t [], ih]
            rfl

theorem pack_vvec (xs : List Variant) : pack (.vvec xs) = .pvec (xs.map pack) := by
  simp only [pack, packV]
  rw [packList_fst_map]

mutual

theorem idsIn_packV : ∀ (v : Variant) (t : Table),
    idsIn ((packV v t).1) = (refsIn v).map object_id
  | .vnone, _ => rfl
  | .vbool _, _ => rfl
  | .vint _, _ => rfl
  | .vdouble _, _ => rfl
  | .vstring _, _ => rfl
  | .vintVec _, _ => rfl
  | .vdoubleVec _, _ => rfl
  | .vobjectRef _, _ => rfl
  | .vvec xs, t => idsInList_packList xs t
  | .vvector2d _ _, _ => rfl
  | .vvector3d _ _ _, _ => rfl
  | .vvector4d _ _ _ _, _ => rfl

theorem idsInList_packList : ∀ (xs : List Variant) (t : Table),
    idsInList ((packList xs t).1) = (refsInList xs).map object_id
  | [], _ => rfl
  | x :: xs, t => by
      calc idsInList ((packList (x :: xs) t).1)
          = idsIn ((packV x t).1) ++ idsInList ((packList xs (packV x t).2).1) := rfl
        _ = (refsIn x).map object_id ++ (refsInList xs).map object_id := by
            rw [idsIn_packV x t, idsInList_packList xs (packV x t).2]
        _ = (refsInList (x :: xs)).map object_id := by simp [refsInList]

end

/-! ### Lemmas about unpacking -/

mutual

theorem unpackV_packV : ∀ (v : Variant) (T : Table),
    (∀ r ∈ refsIn v, tlookup (object_id r) T = some r) → unpackV (pack v) T = .ok v
  | .vnone, _, _ => rfl
  | .vbool _, _, _ => rfl
  | .vint _, _, _ => rfl
  | .vdouble _, _, _ => rfl
  | .vstring _, _, _ => rfl
  | .vintVec _, _, _ => rfl
  | .vdoubleVec _, _, _ => rfl
  | .vobjectRef r, T, h => by
      have hr := h r (by simp [refsIn])
      simp [pack, packV, unpackV, hr]
  | .vvec xs, T, h => by
      have hl := unpackList_packList xs T (fun r hr => h r hr)
      rw [pack_vvec]
      simp [unpackV, hl]
  | .vvector2d _ _, _, _ => rfl
  | .vvector3d _ _ _, _, _ => rfl
  | .vvector4d _ _ _ _, _, _ => rfl

theorem unpackList_packList : ∀ (xs : List Variant) (T : Table),
    (∀ r ∈ refsInList xs, tlookup (object_id r) T = some r) →
    unpackList (xs.map pack) T = .ok xs
  | [], _, _ => rfl
  | x :: xs, T, h => by
      have h1 := unpackV_packV x T (fun r hr => h r (by simp [refsInList, hr]))
      have h2 := unpackList_packList xs T (fun r hr => h r (by simp [refsInList, hr]))
      simp [List.map_cons, unpackList, h1, h2]

end

mutual

theorem unpackV_total : ∀ (w : PackedVariant) (T : Table),
    (∀ id ∈ idsIn w, ∃ u, tlookup id T = some u) → ∃ v, unpackV w T = .ok v
  | .pnone, _, _ => ⟨.vnone, rfl⟩
  | .pbool b, _, _ => ⟨.vbool b, rfl⟩
  | .pint i, _, _ => ⟨.vint i, rfl⟩
  | .pdouble d, _, _ => ⟨.vdouble d, rfl⟩
  | .pstring s, _, _ => ⟨.vstring s, rfl⟩
  | .pintVec xs, _, _ => ⟨.vintVec xs, rfl⟩
  | .pdoubleVec xs, _, _ => ⟨.vdoubleVec xs, rfl⟩
  | .pobjectId id, T, h => by
      obtain ⟨u, hu⟩ := h id (by simp [idsIn])
      exact ⟨.vobjectRef u, by simp [unpackV, hu]⟩
  | .pvec xs, T, h => by
      obtain ⟨vs, hvs⟩ := unpackList_total xs T (fun id hid => h id hid)
      exact ⟨.vvec vs, by simp [unpackV, hvs]⟩
  | .pvector2d x y, _, _ => ⟨.vvector2d x y, rfl⟩
  | .pvector3d x y z, _, _ => ⟨.vvector3d x y z, rfl⟩
  | .pvector4d x y z w, _, _ => ⟨.vvector4d x y z w, rfl⟩

theorem unpackList_total : ∀ (ws : List PackedVariant) (T : Table),
    (∀ id ∈ idsInList ws, ∃ u, tlookup id T = some u) → ∃ vs, unpackList ws T = .ok vs
  | [], _, _ => ⟨[], rfl⟩
  | w :: ws, T, h => by
      obtain ⟨v, hv⟩ := unpackV_total w T (fun id hid => h id (by simp [idsInList, hid]))
      obtain ⟨vs, hvs⟩ := unpackList_total ws T (fun id hid => h id (by simp [idsInList, hid]))
      exact ⟨v :: vs, by simp [unpackList, hv, hvs]⟩

end

mutual

theorem unpackV_missing : ∀ (w : PackedVariant) (T : Table),
    (∃ id ∈ idsIn w, tlookup id T = Option.none) →
    ∃ j, j ∈ idsIn w ∧ tlookup j T = Option.none ∧
      unpackV w T = .error (.unknownObjectId j)
  | .pnone, T, h => by simp [idsIn] at h
  | .pbool _, T, h => by simp [idsIn] at h
  | .pint _, T, h => by simp [idsIn] at h
  | .pdouble _, T, h => by simp [idsIn] at h
  | .pstring _, T, h => by simp [idsIn] at h
  | .pintVec _, T, h => by simp [idsIn] at h
  | .pdoubleVec _, T, h => by simp [idsIn] at h
  | .pobjectId id, T, h => by
      have hid : tlookup id T = Option.none := by
        rcases h with ⟨j, hj, hnone⟩
        simp [idsIn] at hj
        exact hj ▸ hnone
      exact ⟨id, by simp [idsIn], hid, by simp [unpackV, hid]⟩
  | .pvec xs, T, h => by
      obtain ⟨j, hj, hnone, herr⟩ := unpackList_missing xs T h
      exact ⟨j, hj, hnone, by simp [unpackV, herr]⟩
  | .pvector2d _ _, T, h => by simp [idsIn] at h
  | .pvector3d _ _ _, T, h => by simp [idsIn] at h
  | .pvector4d _ _ _ _, T, h => by simp [idsIn] at h

theorem unpackList_missing : ∀ (ws : List PackedVariant) (T : Table),
    (∃ id ∈ idsInList ws, tlookup id T = Option.none) →
    ∃ j, j ∈ idsInList ws ∧ tlookup j T = Option.none ∧
      unpackList ws T = .error (.unknownObjectId j)
  | [], T, h => by simp [idsInList] at h
  | w :: ws, T, h => by
      by_cases hw : ∃ id ∈ idsIn w, tlookup id T = Option.none
      · obtain ⟨j, hj, hnone, herr⟩ := unpackV_missing w T hw
        exact ⟨j, by simp [idsInList, hj], hnone, by simp [unpackList, herr]⟩
      · push_neg at hw
        obtain ⟨v, hv⟩ := unpackV_total w T (fun id hid => by
          cases hu : tlookup id T with
          | none => exact absurd hu (hw id hid)
          | some u => exact ⟨u, rfl⟩)
        have htail : ∃ id ∈ idsInList ws, tlookup id T = Option.none := by
          rcases h with ⟨j, hj, hnone⟩
          simp only [idsInList, List.mem_append] at hj
          rcases hj with hj | hj
          · exact absurd hnone (hw j hj)
          · exact ⟨j, hj, hnone⟩
        obtain ⟨j, hj, hnone, herr⟩ := unpackList_missing ws T htail
        exact ⟨j, by simp [idsInList, hj], hnone, by simp [unpackList, hv, herr]⟩

end

theorem unpackList_get (ws : List PackedVariant) (T : Table) :
    ∀ (ys : List Variant), unpackList ws T = .ok ys →
    ∀ (i : Nat) (w : PackedVariant), ws[i]? = some w →
      ∃ y, ys[i]? = some y ∧ unpackV w T = .ok y := by
  induction ws with
  | nil =>
      intro ys hys i w hw
      simp at hw
  | cons x ws ih =>
      intro ys hys i w hw
      cases hx : unpackV x T with
      | error e => simp [unpackList, hx] at hys
      | ok y0 =>
          cases htail : unpackList ws T with
          | error e => simp [unpackList, hx, htail] at hys
          | ok ys0 =>
              have hys' : ys = y0 :: ys0 := by
                simp [unpackList, hx, htail] at hys
                exact hys.symm
              subst hys'
              cases i with
              | zero =>
                  simp only [List.getElem?_cons_zero, Option.some.injEq] at hw
                  exact ⟨y0, by simp, hw ▸ hx⟩
              | succ n =>
                  simp only [List.getElem?_cons_succ] at hw
                  obtain ⟨y, hy, hyw⟩ := ih ys0 htail n w hw
                  exact ⟨y, by simpa using hy, hyw⟩

theorem unpackMap_packMap_keys (m : VariantMap) (T : Table)
    (h : ∀ kv ∈ m, ∀ id ∈ idsIn (pack kv.2), ∃ u, tlookup id T = some u) :
    ∃ m', unpackMap (packMap m) T = .ok m' ∧ m'.map Prod.fst = m.map Prod.fst := by
  induction m with
  | nil => exact ⟨[], rfl, rfl⟩
  | cons kv m ih =>
      obtain ⟨v, hv⟩ := unpackV_total (pack kv.2) T (h kv (by simp))
      obtain ⟨m', hm', hkeys⟩ := ih (fun kv' hkv' => h kv' (by simp [hkv']))
      refine ⟨(kv.1, v) :: m', ?_, by simp [hkeys]⟩
      simp only [packMap] at hm' ⊢
      simp [unpackMap, unpack, hv, hm']

theorem unpackV_objectId_eq (id : ObjectId) (T : Table) (u : ObjectRef)
    (h : tlookup id T = some u) : unpackV (.pobjectId id) T = .ok (.vobjectRef u) := by
  unfold unpackV
  rw [h]

theorem refsInList_of_mem (xs : List Variant) (x : Variant) (r : ObjectRef)
    (hx : x ∈ xs) (hr : r ∈ refsIn x) : r ∈ refsInList xs := by
  induction xs with
  | nil => simp at hx
  | cons y ys ih =>
      rcases List.mem_cons.mp hx with h | h
      · subst h
        simp only [refsInList, List.mem_append]
        exact Or.inl hr
      · simp only [refsInList, List.mem_append]
        exact Or.inr (ih h)

/-! ### The specified properties -/

/-- C1: Round-trip identity: for every live Variant `v`, unpacking the
packed wire value with the identity table accumulated during that packing
yields a Variant structurally equal to `v`; when `v` contains no `ObjectRef`
the empty table suffices.  In this model an `ObjectRef` is the referenced
object itself, so structural equality of the reconstructed result with `v`
says every reconstructed reference is identity-equal to (the same underlying
object as) the original. -/
theorem roundtrip_identity (v : Variant) (h : live v) (T : Table)
    (hT : T = (packV v []).2 ∨ (refsIn v = [] ∧ T = [])) :
    unpack (pack v) T = .ok v := by
  simp only [unpack]
  rcases hT with hT | ⟨hrefs, hT⟩
  · subst hT
    apply unpackV_packV
    intro r hr
    rw [packV_snd_eq]
    exact tlookup_insertAll_live [] (refsIn v) r h hr
  · subst hT
    apply unpackV_packV
    intro r hr
    rw [hrefs] at hr
    simp at hr

theorem roundtrip_identity_witness :
    live (Variant.vvec [.vint 1, .vobjectRef ⟨5, 0⟩, .vobjectRef ⟨5, 0⟩]) ∧
    unpack (pack (Variant.vvec [.vint 1, .vobjectRef ⟨5, 0⟩, .vobjectRef ⟨5, 0⟩]))
        ((packV (Variant.vvec [.vint 1, .vobjectRef ⟨5, 0⟩, .vobjectRef ⟨5, 0⟩]) []).2) =
      .ok (Variant.vvec [.vint 1, .vobjectRef ⟨5, 0⟩, .vobjectRef ⟨5, 0⟩]) :=
  ⟨by decide, roundtrip_identity _ (by decide) _ (Or.inl rfl)⟩

/-- C2: Shared-reference preservation: if two elements of a sequence are
references to the same live object, packing (one session, starting from the
empty table) assigns both occurrences the same `ObjectId`, and unpacking
with that session's table reconstructs references that are identity-equal to
each other (both positions hold the very same reference `u`). -/
theorem shared_reference_preservation (xs : List Variant) (i j : Nat) (r s : ObjectRef)
    (hi : xs[i]? = some (.vobjectRef r)) (hj : xs[j]? = some (.vobjectRef s))
    (hrs : r = s) :
    ∃ (k : ObjectId) (u : ObjectRef) (ys : List Variant),
      pack (.vvec xs) = .pvec (xs.map pack) ∧
      (xs.map pack)[i]? = some (.pobjectId k) ∧
      (xs.map pack)[j]? = some (.pobjectId k) ∧
      unpack (pack (.vvec xs)) ((packV (.vvec xs) []).2) = .ok (.vvec ys) ∧
      ys[i]? = some (.vobjectRef u) ∧ ys[j]? = some (.vobjectRef u) := by
  cases hrs
  have hxmem : Variant.vobjectRef r ∈ xs := by
    obtain ⟨hlt, heq⟩ := List.getElem?_eq_some_iff.mp hi
    exact heq ▸ List.getElem_mem hlt
  have hrmem : r ∈ refsInList xs :=
    refsInList_of_mem xs _ r hxmem (by simp [refsIn])
  have hTeq : (packV (Variant.vvec xs) []).2 = insertAll [] (refsInList xs) :=
    packV_snd_eq _ []
  obtain ⟨u, hu, huid⟩ :=
    tlookup_insertAll_mem [] (refsInList xs) (object_id r) ⟨r, hrmem, rfl⟩
  have hu' : tlookup (object_id r) ((packV (Variant.vvec xs) []).2) = some u := by
    rw [hTeq]; exact hu
  have hpres : ∀ id ∈ idsInList (xs.map pack),
      ∃ w, tlookup id ((packV (Variant.vvec xs) []).2) = some w := by
    intro id hid
    rw [← packList_fst_map xs [], idsInList_packList xs []] at hid
    obtain ⟨r', hr', hid'⟩ := List.mem_map.mp hid
    obtain ⟨w, hw, _⟩ :=
      tlookup_insertAll_mem [] (refsInList xs) id ⟨r', hr', hid'⟩
    exact ⟨w, by rw [hTeq]; exact hw⟩
  obtain ⟨ys, hys⟩ := unpackList_total (xs.map pack) _ hpres
  refine ⟨object_id r, u, ys, pack_vvec xs, ?_, ?_, ?_, ?_, ?_⟩
  · rw [List.getElem?_map, hi]; rfl
  · rw [List.getElem?_map, hj]; rfl
  · simp only [unpack]
    rw [pack_vvec]
    simp [unpackV, hys]
  · obtain ⟨y, hy, hyeq⟩ :=
      unpackList_get (xs.map pack) _ ys hys i _ (by rw [List.getElem?_map, hi]; rfl)
    have hyeq' : unpackV (.pobjectId (object_id r)) ((packV (Variant.vvec xs) []).2) =
        .ok y := hyeq
    rw [unpackV_objectId_eq _ _ _ hu'] at hyeq'
    cases hyeq'
    exact hy
  · obtain ⟨y, hy, hyeq⟩ :=
      unpackList_get (xs.map pack) _ ys hys j _ (by rw [List.getElem?_map, hj]; rfl)
    have hyeq' : unpackV (.pobjectId (object_id r)) ((packV (Variant.vvec xs) []).2) =
        .ok y := hyeq
    rw [unpackV_objectId_eq _ _ _ hu'] at hyeq'
    cases hyeq'
    exact hy

theorem shared_reference_preservation_witness :
    ([Variant.vobjectRef ⟨3, 1⟩, .vint 7, .vobjectRef ⟨3, 1⟩][0]? =
        some (.vobjectRef ⟨3, 1⟩)) ∧
    ∃ (k : ObjectId) (u : ObjectRef) (ys : List Variant),
      pack (.vvec [Variant.vobjectRef ⟨3, 1⟩, .vint 7, .vobjectRef ⟨3, 1⟩]) =
        .pvec ([Variant.vobjectRef ⟨3, 1⟩, .vint 7, .vobjectRef ⟨3, 1⟩].map pack) ∧
      (([Variant.vobjectRef ⟨3, 1⟩, .vint 7, .vobjectRef ⟨3, 1⟩].map pack)[0]? =
        some (.pobjectId k)) ∧
      (([Variant.vobjectRef ⟨3, 1⟩, .vint 7, .vobjectRef ⟨3, 1⟩].map pack)[2]? =
        some (.pobjectId k)) ∧
      unpack (pack (.vvec [Variant.vobjectRef ⟨3, 1⟩, .vint 7, .vobjectRef ⟨3, 1⟩]))
          ((packV (.vvec [Variant.vobjectRef ⟨3, 1⟩, .vint 7, .vobjectRef ⟨3, 1⟩]) []).2) =
        .ok (.vvec ys) ∧
      ys[0]? = some (.vobjectRef u) ∧ ys[2]? = some (.vobjectRef u) :=
  ⟨rfl, shared_reference_preservation
    [Variant.vobjectRef ⟨3, 1⟩, .vint 7, .vobjectRef ⟨3, 1⟩] 0 2 ⟨3, 1⟩ ⟨3, 1⟩ rfl rfl rfl⟩

/-- C3: Missing-id failure: if the wire value `w` contains an `ObjectId`
absent from the supplied identity table, then `unpack w T` fails with the
`UnknownObjectId` condition (for some contained id that is absent); the
result is `Except.error`, so no partially constructed value is returned. -/
theorem missing_id_failure (w : PackedVariant) (T : Table) (id : ObjectId)
    (hid : id ∈ idsIn w) (habs : tlookup id T = Option.none) :
    ∃ j, j ∈ idsIn w ∧ tlookup j T = Option.none ∧
      unpack w T = .error (.unknownObjectId j) := by
  simp only [unpack]
  exact unpackV_missing w T ⟨id, hid, habs⟩

theorem missing_id_failure_witness :
    (9 ∈ idsIn (.pvec [.pint 1, .pobjectId 9])) ∧
    (tlookup 9 [(5, (⟨5, 0⟩ : ObjectRef))] = Option.none) ∧
    ∃ j, j ∈ idsIn (.pvec [.pint 1, .pobjectId 9]) ∧
      tlookup j [(5, (⟨5, 0⟩ : ObjectRef))] = Option.none ∧
      unpack (.pvec [.pint 1, .pobjectId 9]) [(5, (⟨5, 0⟩ : ObjectRef))] =
        .error (.unknownObjectId j) :=
  ⟨by decide, by decide,
    missing_id_failure (.pvec [.pint 1, .pobjectId 9]) [(5, ⟨5, 0⟩)] 9
      (by decide) (by decide)⟩

/-- C4: Identity-table invariant: every `ObjectRef` encountered while
packing is recorded in the session's table under its `ObjectId` (the entry
found under `object_id r` is a reference with that very id); consequently
every `ObjectId` present in the produced wire value has an entry in the
table exposed via `objects()`; and recording the same object again
idempotently overwrites the same entry. -/
theorem identity_table_invariant (v : Variant) (t0 : Table) (r : ObjectRef)
    (id : ObjectId) (hr : r ∈ refsIn v) (hid : id ∈ idsIn ((packV v t0).1)) :
    (∃ u, tlookup (object_id r) ((packV v t0).2) = some u ∧
      object_id u = object_id r) ∧
    (∃ u, tlookup id ((packV v t0).2) = some u ∧ object_id u = id) ∧
    tinsert (tinsert t0 (object_id r) r) (object_id r) r =
      tinsert t0 (object_id r) r := by
  refine ⟨?_, ?_, tinsert_idem t0 (object_id r) r⟩
  · rw [packV_snd_eq]
    exact tlookup_insertAll_mem t0 (refsIn v) (object_id r) ⟨r, hr, rfl⟩
  · rw [packV_snd_eq]
    rw [idsIn_packV] at hid
    obtain ⟨r', hr', hrid⟩ := List.mem_map.mp hid
    exact tlookup_insertAll_mem t0 (refsIn v) id ⟨r', hr', hrid⟩

theorem identity_table_invariant_witness :
    ((⟨5, 0⟩ : ObjectRef) ∈ refsIn (.vvec [.vobjectRef ⟨5, 0⟩, .vint 2])) ∧
    (5 ∈ idsIn ((packV (.vvec [.vobjectRef ⟨5, 0⟩, .vint 2]) []).1)) ∧
    ((∃ u, tlookup (object_id (⟨5, 0⟩ : ObjectRef))
        ((packV (.vvec [.vobjectRef ⟨5, 0⟩, .vint 2]) []).2) = some u ∧
        object_id u = object_id (⟨5, 0⟩ : ObjectRef)) ∧
      (∃ u, tlookup 5 ((packV (.vvec [.vobjectRef ⟨5, 0⟩, .vint 2]) []).2) = some u ∧
        object_id u = 5) ∧
      tinsert (tinsert [] (object_id (⟨5, 0⟩ : ObjectRef)) ⟨5, 0⟩)
          (object_id (⟨5, 0⟩ : ObjectRef)) ⟨5, 0⟩ =
        tinsert [] (object_id (⟨5, 0⟩ : ObjectRef)) ⟨5, 0⟩) :=
  ⟨by decide, by decide,
    identity_table_invariant (.vvec [.vobjectRef ⟨5, 0⟩, .vint 2]) [] ⟨5, 0⟩ 5
      (by decide) (by decide)⟩

/-- C5: Map order preservation: packing a `VariantMap` and unpacking the
resulting `PackedMap` with a sufficient identity table (one holding an entry
for every id occurring in the packed values) succeeds and yields a map whose
key sequence — order and full key set — is exactly that of the original. -/
theorem map_order_preservation (m : VariantMap) (T : Table)
    (hT : ∀ kv ∈ m, ∀ id ∈ idsIn (pack kv.2), (tlookup id T).isSome = true) :
    ∃ m', unpackMap (packMap m) T = .ok m' ∧
      m'.map Prod.fst = m.map Prod.fst := by
  apply unpackMap_packMap_keys
  intro kv hkv id hid
  obtain ⟨u, hu⟩ := Option.isSome_iff_exists.mp (hT kv hkv id hid)
  exact ⟨u, hu⟩

theorem map_order_preservation_witness :
    (∀ kv ∈ [("a", Variant.vint 1), ("b", .vdouble (5 / 2)), ("c", .vobjectRef ⟨4, 2⟩)],
      ∀ id ∈ idsIn (pack kv.2),
        (tlookup id [(4, (⟨4, 2⟩ : ObjectRef))]).isSome = true) ∧
    ∃ m', unpackMap
        (packMap [("a", Variant.vint 1), ("b", .vdouble (5 / 2)), ("c", .vobjectRef ⟨4, 2⟩)])
        [(4, (⟨4, 2⟩ : ObjectRef))] = .ok m' ∧
      m'.map Prod.fst =
        [("a", Variant.vint 1), ("b", .vdouble (5 / 2)),
          ("c", .vobjectRef ⟨4, 2⟩)].map Prod.fst :=
  ⟨by decide, map_order_preservation
    [("a", Variant.vint 1), ("b", .vdouble (5 / 2)), ("c", .vobjectRef ⟨4, 2⟩)]
    [(4, ⟨4, 2⟩)] (by decide)⟩

/-- C6: ObjectId derivation: `object_id` is deterministic and depends only
on the object's identity — its address, not its contents: two references
with the same address (whatever the contents) receive the same id, and
references to distinct live objects (distinct addresses) never collide. -/
theorem object_id_identity (p q : ObjectRef) :
    (p.addr = q.addr → object_id p = object_id q) ∧
    (p.addr ≠ q.addr → object_id p ≠ object_id q) :=
  ⟨fun h => h, fun h => h⟩

theorem object_id_identity_witness :
    object_id (⟨1, 5⟩ : ObjectRef) = object_id (⟨1, 7⟩ : ObjectRef) ∧
    object_id (⟨1, 5⟩ : ObjectRef) ≠ object_id (⟨2, 5⟩ : ObjectRef) :=
  ⟨(object_id_identity ⟨1, 5⟩ ⟨1, 7⟩).1 rfl, (object_id_identity ⟨1, 5⟩ ⟨2, 5⟩).2 (by decide)⟩

/-- C7: Pack totality and purity: packing is total over the closed value set
(`packV` is a total function — the visitor has no failure path) and never
mutates its argument (it is a pure transform in this model); its result is a
pure function of the input plus the accumulated side-table: the wire value
depends on the input Variant alone (for any accumulated table it equals the
free function `pack`), and the table outcome is exactly the accumulated
table extended by the references encountered in the input. -/
theorem pack_total_pure (v : Variant) (t : Table) :
    (packV v t).1 = pack v ∧ (packV v t).2 = insertAll t (refsIn v) :=
  ⟨packV_fst_indep v t [], packV_snd_eq v t⟩

theorem pack_total_pure_witness :
    (packV (.vobjectRef ⟨2, 3⟩) [(9, ⟨9, 9⟩)]).1 = pack (.vobjectRef ⟨2, 3⟩) ∧
    (packV (.vobjectRef ⟨2, 3⟩) [(9, ⟨9, 9⟩)]).2 =
      insertAll [(9, ⟨9, 9⟩)] (refsIn (.vobjectRef ⟨2, 3⟩)) :=
  pack_total_pure (.vobjectRef ⟨2, 3⟩) [(9, ⟨9, 9⟩)]

/-- C8: Idempotent packing: packing the same live Variant in two independent
sessions (whatever table each session has accumulated so far — the
referenced objects' addresses are unchanged, as the same Variant is packed)
yields structurally equal wire values; and within one session the ids
emitted for two occurrences of the same object are identical. -/
theorem idempotent_packing (v : Variant) (t1 t2 : Table) (xs : List Variant)
    (i j : Nat) (r : ObjectRef) (hi : xs[i]? = some (.vobjectRef r))
    (hj : xs[j]? = some (.vobjectRef r)) :
    (packV v t1).1 = (packV v t2).1 ∧ (xs.map pack)[i]? = (xs.map pack)[j]? := by
  refine ⟨packV_fst_indep v t1 t2, ?_⟩
  rw [List.getElem?_map, List.getElem?_map, hi, hj]

theorem idempotent_packing_witness :
    ([Variant.vobjectRef ⟨2, 3⟩, .vobjectRef ⟨2, 3⟩][0]? =
      some (.vobjectRef ⟨2, 3⟩)) ∧
    ((packV (.vobjectRef ⟨2, 3⟩) []).1 =
        (packV (.vobjectRef ⟨2, 3⟩) [(7, ⟨7, 7⟩)]).1 ∧
      ([Variant.vobjectRef ⟨2, 3⟩, .vobjectRef ⟨2, 3⟩].map pack)[0]? =
        ([Variant.vobjectRef ⟨2, 3⟩, .vobjectRef ⟨2, 3⟩].map pack)[1]?) :=
  ⟨rfl, idempotent_packing (.vobjectRef ⟨2, 3⟩) [] [(7, ⟨7, 7⟩)]
    [.vobjectRef ⟨2, 3⟩, .vobjectRef ⟨2, 3⟩] 0 1 ⟨2, 3⟩ rfl rfl⟩

/-- C9 (counterexample): the claim that every invocation of the free
function `pack` gives its caller the identity table accumulated during that
pack is false: the free function returns only the wire value of a temporary
visitor, and the accumulated table is not recoverable from that result — at
the concrete inputs `vobjectRef ⟨7, 0⟩` and `vobjectRef ⟨7, 1⟩` the wire
values coincide while the accumulated tables differ, so no function of the
returned value yields the table. -/
theorem pack_discards_table : ¬ pack_exposes_table := by
  rintro ⟨g, hg⟩
  have hp : pack (.vobjectRef ⟨7, 0⟩) = pack (.vobjectRef ⟨7, 1⟩) := rfl
  have h12 : (packV (.vobjectRef ⟨7, 0⟩) []).2 = (packV (.vobjectRef ⟨7, 1⟩) []).2 := by
    rw [← hg (.vobjectRef ⟨7, 0⟩), ← hg (.vobjectRef ⟨7, 1⟩), hp]
  exact absurd h12 (by decide)

/-- C9 (amended): the identity table is available at the visitor level:
applying a caller-constructed `PackVisitor` yields the wire value together
with the accumulated identity table (exposed via `objects()`), which holds
an entry for every referenced object; the public free functions
`pack(Variant)` and `pack(VariantMap)` return only the wire value of a
temporary visitor and discard that table. -/
theorem pack_visitor_objects (v : Variant) (m : VariantMap) (r : ObjectRef)
    (hr : r ∈ refsIn v) :
    pack v = (packV v []).1 ∧
    packMap m = m.map (fun kv => (kv.1, (packV kv.2 []).1)) ∧
    ∃ u, tlookup (object_id r) ((packV v []).2) = some u ∧
      object_id u = object_id r := by
  refine ⟨rfl, rfl, ?_⟩
  rw [packV_snd_eq]
  exact tlookup_insertAll_mem [] (refsIn v) (object_id r) ⟨r, hr, rfl⟩

theorem pack_visitor_objects_witness :
    ((⟨7, 0⟩ : ObjectRef) ∈ refsIn (.vobjectRef ⟨7, 0⟩)) ∧
    (pack (.vobjectRef ⟨7, 0⟩) = (packV (.vobjectRef ⟨7, 0⟩) []).1 ∧
      packMap [("a", Variant.vint 1)] =
        [("a", Variant.vint 1)].map (fun kv => (kv.1, (packV kv.2 []).1)) ∧
      ∃ u, tlookup (object_id (⟨7, 0⟩ : ObjectRef))
          ((packV (.vobjectRef ⟨7, 0⟩) []).2) = some u ∧
        object_id u = object_id (⟨7, 0⟩ : ObjectRef)) :=
  ⟨by decide, pack_visitor_objects (.vobjectRef ⟨7, 0⟩) [("a", Variant.vint 1)]
    ⟨7, 0⟩ (by decide)⟩

end ScriptInterface

namespace Observables

/-- C10: Zero-count bin guard: in the normalization loop of
`CylindricalVelocityProfile::evaluate`, each accumulated histogram entry is
divided by its total count only when that count is strictly positive, and an
entry whose count is zero is returned unchanged — no division by a zero
count ever occurs. -/
theorem zero_count_bin_guard (hist : List Rat) (count : List Nat) (i : Nat)
    (h : Rat) (c : Nat) (hh : hist[i]? = some h) (hc : count[i]? = some c) :
    (evaluate_normalize hist count)[i]? =
      some (if 0 < c then h / (c : Rat) else h) := by
  simp only [evaluate_normalize, List.getElem?_zipWith, hh, hc]

theorem zero_count_bin_guard_witness :
    ([(6 : Rat), 5][0]? = some 6) ∧ ([3, 0][0]? = some (3 : Nat)) ∧
    ([(6 : Rat), 5][1]? = some 5) ∧ ([3, 0][1]? = some (0 : Nat)) ∧
    (evaluate_normalize [6, 5] [3, 0])[0]? =
      some (if 0 < (3 : Nat) then (6 : Rat) / ((3 : Nat) : Rat) else 6) ∧
    (evaluate_normalize [6, 5] [3, 0])[1]? =
      some (if 0 < (0 : Nat) then (5 : Rat) / ((0 : Nat) : Rat) else 5) :=
  ⟨rfl, rfl, rfl, rfl,
    zero_count_bin_guard [6, 5] [3, 0] 0 6 3 rfl rfl,
    zero_count_bin_guard [6, 5] [3, 0] 1 5 0 rfl rfl⟩

end Observables
